import Mathlib

/-!
Shallow embedding of the `surf-pool` crate (`src/lib.rs`): a bounded pool of
HTTP clients guarded by a counting semaphore (the admission gate) and one
mutex per slot.  Pure configuration code (builder, build) is embedded as Lean
functions; the concurrent checkout/release protocol is embedded as a labelled
transition system on an explicit pool state.
-/

/-- Model of `surf::Client`; the pooled resource is opaque, and `Client::new()`
is its only constructor. -/
inductive Client where
  | new
deriving DecidableEq, Repr

/-- Model of `surf::RequestBuilder` (opaque payload). -/
structure RequestBuilder where
  url : String
deriving DecidableEq, Repr

/-- Model of `surf::Request` (opaque payload). -/
structure Request where
  url : String
deriving DecidableEq, Repr

/-- `RequestBuilder::build` turns the builder into the immutable request. -/
def RequestBuilder.build (rb : RequestBuilder) : Request :=
  { url := rb.url }

/-- `const MAX_POOL_SIZE: usize = 100;` -/
def MAX_POOL_SIZE : Nat := 100

/-- The builder struct (`SurfPoolBuilder`): requested size, optional
health-check request template, pre-connect flag. -/
structure SurfPoolBuilder where
  size : Nat
  health_check : Option RequestBuilder
  pre_connect : Bool
deriving DecidableEq, Repr

/-- `#[derive(Default)]` on `SurfPoolBuilder`: zero size, no template,
pre-connect disabled. -/
def SurfPoolBuilder.mkDefault : SurfPoolBuilder :=
  { size := 0, health_check := none, pre_connect := false }

/-- The error enum `SurfPoolError`; its single variant is `SizeNotValid`. -/
inductive SurfPoolError where
  | SizeNotValid (size : Nat)
deriving DecidableEq, Repr

/-- `SurfPoolBuilder::new(size)`: rejects `size == 0 || size > MAX_POOL_SIZE`,
otherwise fills the remaining fields from `Default`. -/
def SurfPoolBuilder.new (size : Nat) : Except SurfPoolError SurfPoolBuilder :=
  if size = 0 ∨ size > MAX_POOL_SIZE then
    .error (.SizeNotValid size)
  else
    .ok { SurfPoolBuilder.mkDefault with size := size }

/-- `SurfPoolBuilder::health_check(self, hc)`: stores the template
(last write wins). -/
def SurfPoolBuilder.set_health_check (b : SurfPoolBuilder)
    (hc : RequestBuilder) : SurfPoolBuilder :=
  { b with health_check := some hc }

/-- `SurfPoolBuilder::pre_connect(self, flag)`: stores the eager-connect
flag. -/
def SurfPoolBuilder.set_pre_connect (b : SurfPoolBuilder)
    (flag : Bool) : SurfPoolBuilder :=
  { b with pre_connect := flag }

/-- The static result of `SurfPoolBuilder::build`: the slot vector, the
semaphore's initial permit count, and the retained request template. -/
structure SurfPool where
  pool : List Client
  semAvail : Nat
  health_check : Option Request
deriving DecidableEq, Repr

/-- `SurfPoolBuilder::build`.  `net` is an oracle giving the outcome of the
warm-up call issued against slot `i` (the code discards it via
`unwrap_or_default()`).  Besides the pool, we return the trace of warm-up
attempts as `(slot index, outcome)` pairs, in the order they are issued. -/
def SurfPoolBuilder.build (b : SurfPoolBuilder) (net : Nat → Bool) :
    SurfPool × List (Nat × Bool) :=
  let pool := List.replicate b.size Client.new
  match b.health_check with
  | some rb =>
      let req := rb.build
      let events :=
        if b.pre_connect then (List.range b.size).map (fun i => (i, net i))
        else []
      ({ pool := pool, semAvail := b.size, health_check := some req }, events)
  | none =>
      ({ pool := pool, semAvail := b.size, health_check := none }, [])

/-- `SurfPool::get_pool_size`. -/
def SurfPool.get_pool_size (p : SurfPool) : Nat :=
  p.pool.length

/-- The two release actions a `Handler` performs when dropped. -/
inductive ReleaseAction where
  | releasePermit
  | releaseLock
deriving DecidableEq, Repr

/-- Order in which a dropped `Handler` performs its releases.  Rust drops
struct fields in declaration order, and `Handler` declares `sg` (the
semaphore guard, whose drop returns the admission permit) before `mg` (the
mutex guard, whose drop unlocks the slot). -/
def handlerDropOrder : List ReleaseAction :=
  [ReleaseAction.releasePermit, ReleaseAction.releaseLock]

/-- Lifecycle phase of a live `Handler`: `full` holds permit and lock;
`permitDropped` is mid-destruction, its `sg` field already dropped (permit
returned) but its `mg` field still holding the slot lock. -/
inductive GuardPhase where
  | full
  | permitDropped
deriving DecidableEq, Repr

/-- A live (possibly mid-destruction) `Handler`: which slot's mutex it holds
and its lifecycle phase. -/
structure Guard where
  slot : Nat
  phase : GuardPhase
deriving DecidableEq, Repr

/-- Dynamic state of one pool shared by all its clones: slot lock bits
(`true` = mutex held), available semaphore permits, whether the semaphore has
been poisoned, and the live guards. -/
structure PoolState where
  size : Nat
  locked : List Bool
  avail : Nat
  poisoned : Bool
  guards : List Guard
deriving DecidableEq, Repr

/-- Dynamic state right after `build`: all slots unlocked, the semaphore
created with `Semaphore::new(self.size)` permits, no guards. -/
def initState (n : Nat) : PoolState :=
  { size := n
    locked := List.replicate n false
    avail := n
    poisoned := false
    guards := [] }

/-- Dynamic state corresponding to a freshly built static pool. -/
def PoolState.ofPool (p : SurfPool) : PoolState :=
  { size := p.pool.length
    locked := List.replicate p.pool.length false
    avail := p.semAvail
    poisoned := false
    guards := [] }

/-- The scan loop of `get_handler_option`: walk the slot vector from index 0
and return the index of the first slot whose `try_lock_arc` succeeds (lock
bit `false`); `none` when every slot is locked. -/
def firstFree : List Bool → Option Nat
  | [] => none
  | b :: rest => if b then (firstFree rest).map (· + 1) else some 0

/-- Number of guards currently holding a permit (phase `full`). -/
def countFull (gs : List Guard) : Nat :=
  (gs.filter fun g => g.phase == GuardPhase.full).length

/-- Outcome of `get_handler_option` once the semaphore acquisition resolves. -/
inductive CheckoutResult where
  | got (slot : Nat) (s : PoolState)
  | noSlot
  | acquireFailed
deriving DecidableEq, Repr

/-- Body of `get_handler_option` after `acquire_arc(1)` resolves: the
`.unwrap()` on the acquisition result fails only if the semaphore was
poisoned; otherwise one permit is taken and the scan runs.  On a successful
scan the slot is locked and a `full` guard is created; if the scan finds no
free slot the function returns `None` (the local `sg` is dropped, returning
the permit, so the pool state is unchanged). -/
def checkoutAfterAcquire (s : PoolState) : CheckoutResult :=
  if s.poisoned then .acquireFailed
  else
    match firstFree s.locked with
    | some i =>
        .got i { s with
                   avail := s.avail - 1
                   locked := s.locked.set i true
                   guards := s.guards ++ [{ slot := i, phase := .full }] }
    | none => .noSlot

/-- Outcome of `get_handler`: either a `Handler` or a fatal fault (the
`.unwrap()` on the `Option`). -/
inductive HandlerResult where
  | handler (slot : Nat) (s : PoolState)
  | fatal
deriving DecidableEq, Repr

/-- `get_handler` = `get_handler_option().unwrap()`: a `None` from the scan,
like a failed acquisition, becomes an unrecoverable fault. -/
def get_handler (s : PoolState) : HandlerResult :=
  match checkoutAfterAcquire s with
  | .got i s' => .handler i s'
  | .noSlot => .fatal
  | .acquireFailed => .fatal

/-- Interleaving semantics of the pool.  `checkout` fires only when a permit
is available (otherwise `acquire_arc(1).await` keeps the caller suspended).
Guard destruction is two transitions in the order fixed by
`handlerDropOrder`: `dropPermit` first (field `sg`), then `dropLock`
(field `mg`). -/
inductive Step : PoolState → PoolState → Prop
  | checkout {s : PoolState} {i : Nat} {s' : PoolState} :
      0 < s.avail → checkoutAfterAcquire s = .got i s' → Step s s'
  | dropPermit {s : PoolState} {l₁ l₂ : List Guard} {i : Nat} :
      s.guards = l₁ ++ { slot := i, phase := .full } :: l₂ →
      Step s { s with
                 avail := s.avail + 1
                 guards := l₁ ++ { slot := i, phase := .permitDropped } :: l₂ }
  | dropLock {s : PoolState} {l₁ l₂ : List Guard} {i : Nat} :
      s.guards = l₁ ++ { slot := i, phase := .permitDropped } :: l₂ →
      Step s { s with
                 locked := s.locked.set i false
                 guards := l₁ ++ l₂ }

/-- States reachable from a freshly built pool of size `n`. -/
inductive Reachable (n : Nat) : PoolState → Prop
  | init : Reachable n (initState n)
  | step {s s' : PoolState} : Reachable n s → Step s s' → Reachable n s'

/-- Pool state reached from a size-1 pool by checking a guard out and then
letting its destructor run its first half: the permit (field `sg`) is back in
the gate while the slot lock (field `mg`) is still held. -/
def midDropState : PoolState :=
  { size := 1
    locked := [true]
    avail := 1
    poisoned := false
    guards := [{ slot := 0, phase := .permitDropped }] }

/-- `Arc::clone`: a new handle to the same allocation (allocations are
modelled as numeric ids). -/
def arcClone (r : Nat) : Nat := r

/-- `SurfPool` seen as what `#[derive(Clone)]` actually copies: the `Vec` of
`Arc`s pointing at the slot mutexes and the `Arc` pointing at the semaphore,
as allocation ids, plus the (value-cloned) template. -/
structure SurfPoolRefs where
  poolRefs : List Nat
  semRef : Nat
  health_check : Option Request
deriving DecidableEq, Repr

/-- `Clone::clone` as derived for `SurfPool`: each `Arc` is `Arc::clone`d
(same allocation), the template is value-cloned. -/
def SurfPoolRefs.clone (p : SurfPoolRefs) : SurfPoolRefs :=
  { poolRefs := p.poolRefs.map arcClone
    semRef := arcClone p.semRef
    health_check := p.health_check }

/-- The shared dynamic state a pool handle operates on: the heap cell of its
semaphore/slot allocation. -/
def SurfPoolRefs.stateOf (p : SurfPoolRefs) (heap : Nat → PoolState) : PoolState :=
  heap p.semRef

/-- Invariant of reachable pool states, proved inductive below. -/
structure PoolInv (n : Nat) (s : PoolState) : Prop where
  size_eq : s.size = n
  locked_len : s.locked.length = n
  not_poisoned : s.poisoned = false
  slots_nodup : (s.guards.map Guard.slot).Nodup
  slots_lt : ∀ g ∈ s.guards, g.slot < n
  slots_locked : ∀ g ∈ s.guards, s.locked[g.slot]? = some true
  permits : countFull s.guards + s.avail = n

/-! ### Basic lemmas about the scan and the permit count -/

theorem firstFree_some {l : List Bool} {i : Nat} (h : firstFree l = some i) :
    l[i]? = some false ∧ ∀ j, j < i → l[j]? = some true := by
  induction l generalizing i with
  | nil => simp [firstFree] at h
  | cons b rest ih =>
      cases b with
      | false =>
          simp [firstFree] at h
          subst h
          exact ⟨by simp, fun j hj => absurd hj (Nat.not_lt_zero j)⟩
      | true =>
          simp [firstFree] at h
          obtain ⟨i', hi', rfl⟩ := h
          obtain ⟨h1, h2⟩ := ih hi'
          refine ⟨by simpa using h1, ?_⟩
          intro j hj
          cases j with
          | zero => simp
          | succ j' => simpa using h2 j' (Nat.lt_of_succ_lt_succ hj)

theorem firstFree_none {l : List Bool} (h : firstFree l = none) :
    ∀ b ∈ l, b = true := by
  induction l with
  | nil => intro b hb; simp at hb
  | cons x rest ih =>
      cases x with
      | false => simp [firstFree] at h
      | true =>
          simp [firstFree] at h
          intro b hb
          rcases List.mem_cons.mp hb with rfl | hb'
          · rfl
          · exact ih h b hb'

theorem firstFree_none_count {l : List Bool} (h : firstFree l = none) :
    l.count true = l.length := by
  induction l with
  | nil => rfl
  | cons x rest ih =>
      cases x with
      | false => simp [firstFree] at h
      | true =>
          simp [firstFree] at h
          simp [List.count_cons, ih h]

theorem countFull_append (l₁ l₂ : List Guard) :
    countFull (l₁ ++ l₂) = countFull l₁ + countFull l₂ := by
  simp [countFull, List.filter_append]

theorem countFull_cons_full (i : Nat) (l : List Guard) :
    countFull ({ slot := i, phase := .full } :: l) = countFull l + 1 := by
  simp [countFull, List.filter_cons]

theorem countFull_cons_pd (i : Nat) (l : List Guard) :
    countFull ({ slot := i, phase := .permitDropped } :: l) = countFull l := by
  simp [countFull, List.filter_cons]

theorem length_le_of_nodup_lt {l : List Nat} {n : Nat} (hn : l.Nodup)
    (hlt : ∀ x ∈ l, x < n) : l.length ≤ n := by
  have h1 : l.toFinset.card = l.length := List.toFinset_card_of_nodup hn
  have h2 : l.toFinset ⊆ Finset.range n := by
    intro x hx
    rw [Finset.mem_range]
    exact hlt x (List.mem_toFinset.mp hx)
  have h3 := Finset.card_le_card h2
  rw [Finset.card_range] at h3
  omega

/-! ### The invariant is inductive -/

theorem inv_init (n : Nat) : PoolInv n (initState n) := by
  constructor <;> simp [initState, countFull]

theorem inv_step {n : Nat} {s s' : PoolState} (hI : PoolInv n s)
    (hs : Step s s') : PoolInv n s' := by
  cases hs with
  | checkout hav heq =>
      rw [checkoutAfterAcquire, hI.not_poisoned] at heq
      simp only [Bool.false_eq_true, if_false] at heq
      cases hf : firstFree s.locked with
      | none => rw [hf] at heq; exact absurd heq (by simp)
      | some j =>
          rw [hf] at heq
          injection heq with hj hs'
          subst hj
          subst hs'
          obtain ⟨hfree, _⟩ := firstFree_some hf
          have hjlt : j < s.locked.length := by
            rcases List.getElem?_eq_some.mp hfree with ⟨h, _⟩
            exact h
          have hjn : j < n := hI.locked_len ▸ hjlt
          have hnotin : ∀ g ∈ s.guards, g.slot ≠ j := by
            intro g hg hgj
            have := hI.slots_locked g hg
            rw [hgj, hfree] at this
            simp at this
          constructor
          · exact hI.size_eq
          · show (s.locked.set j true).length = n
            rw [List.length_set]
            exact hI.locked_len
          · rfl
          · show ((s.guards ++ [({ slot := j, phase := .full } : Guard)]).map Guard.slot).Nodup
            simp only [List.map_append, List.map_cons, List.map_nil]
            rw [List.nodup_middle]
            refine List.Nodup.cons ?_ (by simpa using hI.slots_nodup)
            intro hmem
            simp only [List.append_nil, List.mem_map] at hmem
            obtain ⟨g, hg, hgj⟩ := hmem
            exact hnotin g hg hgj
          · intro g hg
            have hg2 : g ∈ s.guards ++ [({ slot := j, phase := .full } : Guard)] := hg
            rcases List.mem_append.mp hg2 with hg' | hg'
            · exact hI.slots_lt g hg'
            · simp at hg'
              subst hg'
              exact hjn
          · intro g hg
            have hg2 : g ∈ s.guards ++ [({ slot := j, phase := .full } : Guard)] := hg
            rcases List.mem_append.mp hg2 with hg' | hg'
            · have hne : g.slot ≠ j := hnotin g hg'
              show (s.locked.set j true)[g.slot]? = some true
              rw [List.getElem?_set_ne (fun h => hne h.symm)]
              exact hI.slots_locked g hg'
            · simp at hg'
              subst hg'
              show (s.locked.set j true)[j]? = some true
              exact List.getElem?_set_eq_of_lt true hjlt
          · show countFull (s.guards ++ [({ slot := j, phase := .full } : Guard)]) + (s.avail - 1) = n
            rw [countFull_append]
            have h1 : countFull [({ slot := j, phase := .full } : Guard)] = 1 := by
              simp [countFull, List.filter_cons]
            rw [h1]
            have := hI.permits
            omega
  | dropPermit hg =>
      rename_i l₁ l₂ i
      have hmemold : ∀ g ∈ s.guards, g.slot < n ∧ s.locked[g.slot]? = some true :=
        fun g hgm => ⟨hI.slots_lt g hgm, hI.slots_locked g hgm⟩
      have hifull : ({ slot := i, phase := .full } : Guard) ∈ s.guards := by
        rw [hg]; simp
      constructor
      · exact hI.size_eq
      · exact hI.locked_len
      · exact hI.not_poisoned
      · show ((l₁ ++ ({ slot := i, phase := .permitDropped } : Guard) :: l₂).map Guard.slot).Nodup
        have hold := hI.slots_nodup
        rw [hg] at hold
        simpa using hold
      · intro g hgm
        have hgm2 : g ∈ l₁ ++ { slot := i, phase := GuardPhase.permitDropped } :: l₂ := hgm
        rcases List.mem_append.mp hgm2 with h1 | h1
        · exact (hmemold g (by rw [hg]; exact List.mem_append_left _ h1)).1
        · rcases List.mem_cons.mp h1 with rfl | h2
          · exact (hmemold _ hifull).1
          · exact (hmemold g (by rw [hg]; exact List.mem_append_right _ (List.mem_cons_of_mem _ h2))).1
      · intro g hgm
        have hgm2 : g ∈ l₁ ++ { slot := i, phase := GuardPhase.permitDropped } :: l₂ := hgm
        show s.locked[g.slot]? = some true
        rcases List.mem_append.mp hgm2 with h1 | h1
        · exact (hmemold g (by rw [hg]; exact List.mem_append_left _ h1)).2
        · rcases List.mem_cons.mp h1 with rfl | h2
          · exact (hmemold _ hifull).2
          · exact (hmemold g (by rw [hg]; exact List.mem_append_right _ (List.mem_cons_of_mem _ h2))).2
      · have hold := hI.permits
        rw [hg] at hold
        rw [countFull_append, countFull_cons_full] at hold
        show countFull (l₁ ++ ({ slot := i, phase := .permitDropped } : Guard) :: l₂) + (s.avail + 1) = n
        rw [countFull_append, countFull_cons_pd]
        omega
  | dropLock hg =>
      rename_i l₁ l₂ i
      have hold := hI.slots_nodup
      rw [hg] at hold
      simp only [List.map_append, List.map_cons] at hold
      rw [List.nodup_middle] at hold
      have hinotin : i ∉ (l₁.map Guard.slot ++ l₂.map Guard.slot) :=
        (List.nodup_cons.mp hold).1
      have htail : ((l₁ ++ l₂).map Guard.slot).Nodup := by
        rw [List.map_append]
        exact (List.nodup_cons.mp hold).2
      constructor
      · exact hI.size_eq
      · show (s.locked.set i false).length = n
        rw [List.length_set]
        exact hI.locked_len
      · exact hI.not_poisoned
      · exact htail
      · intro g hgm
        have hgm2 : g ∈ l₁ ++ l₂ := hgm
        apply hI.slots_lt
        rw [hg]
        rcases List.mem_append.mp hgm2 with h1 | h1
        · exact List.mem_append_left _ h1
        · exact List.mem_append_right _ (List.mem_cons_of_mem _ h1)
      · intro g hgm
        have hgm2 : g ∈ l₁ ++ l₂ := hgm
        have hgne : g.slot ≠ i := by
          intro hcontra
          apply hinotin
          rw [← List.map_append]
          exact hcontra ▸ List.mem_map_of_mem Guard.slot hgm2
        show (s.locked.set i false)[g.slot]? = some true
        rw [List.getElem?_set_ne (fun h => hgne h.symm)]
        apply hI.slots_locked
        rw [hg]
        rcases List.mem_append.mp hgm2 with h1 | h1
        · exact List.mem_append_left _ h1
        · exact List.mem_append_right _ (List.mem_cons_of_mem _ h1)
      · have holdp := hI.permits
        rw [hg] at holdp
        rw [countFull_append, countFull_cons_pd] at holdp
        show countFull (l₁ ++ l₂) + s.avail = n
        rw [countFull_append]
        omega

theorem reachable_inv {n : Nat} {s : PoolState} (h : Reachable n s) :
    PoolInv n s := by
  induction h with
  | init => exact inv_init n
  | step _ hs ih => exact inv_step ih hs

/-! ### Destructuring a successful checkout, and further consequences -/

theorem checkoutAfterAcquire_got {s : PoolState} {i : Nat} {s' : PoolState}
    (h : checkoutAfterAcquire s = .got i s') :
    s.poisoned = false ∧ firstFree s.locked = some i ∧
    s' = { s with
             avail := s.avail - 1
             locked := s.locked.set i true
             guards := s.guards ++ [({ slot := i, phase := .full } : Guard)] } := by
  rw [checkoutAfterAcquire] at h
  cases hp : s.poisoned with
  | true => rw [hp] at h; simp at h
  | false =>
      rw [hp] at h
      simp only [Bool.false_eq_true, if_false] at h
      cases hf : firstFree s.locked with
      | none => rw [hf] at h; exact absurd h (by simp)
      | some j =>
          rw [hf] at h
          injection h with h1 h2
          subst h1
          exact ⟨rfl, rfl, h2.symm⟩

theorem step_locked_length {s s' : PoolState} (hs : Step s s') :
    s'.locked.length = s.locked.length := by
  cases hs with
  | checkout hav heq =>
      obtain ⟨-, -, rfl⟩ := checkoutAfterAcquire_got heq
      exact List.length_set s.locked _ _
  | dropPermit hg => rfl
  | dropLock hg => exact List.length_set s.locked _ _

theorem inv_guards_le {n : Nat} {s : PoolState} (hI : PoolInv n s) :
    s.guards.length ≤ n := by
  have h := length_le_of_nodup_lt hI.slots_nodup (by
    intro x hx
    obtain ⟨g, hg, rfl⟩ := List.mem_map.mp hx
    exact hI.slots_lt g hg)
  simpa using h

/-! ### The claims -/

/-- C1: the admission semaphore of a pool built with requested size `n` starts
with exactly `n` permits, and in every reachable state the permits held by
live guards plus the permits available in the gate equal `n`; hence at most
`n` guards are concurrently live, and once `n` permits are held no permit is
left, so an (n+1)-th checkout suspends in `acquire_arc` until a guard is
released. -/
theorem c1_admission_gate_invariant (n : Nat) (s : PoolState)
    (h : Reachable n s) :
    (∀ (b : SurfPoolBuilder) (net : Nat → Bool), b.size = n →
        PoolState.ofPool (b.build net).1 = initState n) ∧
    (initState n).avail = n ∧
    countFull s.guards + s.avail = n ∧
    s.guards.length ≤ n ∧
    (countFull s.guards = n → s.avail = 0) := by
  have hI := reachable_inv h
  refine ⟨?_, rfl, hI.permits, inv_guards_le hI, ?_⟩
  · intro b net hb
    cases hbc : b.health_check <;>
      simp [SurfPoolBuilder.build, hbc, PoolState.ofPool, initState, hb]
  · intro hfull
    have := hI.permits
    omega

/-- Witness for C1 at a concrete reachable state of a pool of size 2. -/
theorem c1_witness :
    countFull (initState 2).guards + (initState 2).avail = 2 ∧
    (initState 2).guards.length ≤ 2 :=
  ⟨(c1_admission_gate_invariant 2 (initState 2) Reachable.init).2.2.1,
   (c1_admission_gate_invariant 2 (initState 2) Reachable.init).2.2.2.1⟩

/-- C2: `SurfPoolBuilder::new` fails with the size error exactly when the size
is 0 or greater than 100 (so 100 itself succeeds); on success the builder has
that size, no warm-up template and pre-connect disabled, and `SizeNotValid` is
the sole error variant of the crate. -/
theorem c2_new_size_validation (n : Nat) :
    SurfPoolBuilder.new n =
      (if n = 0 ∨ n > 100 then .error (.SizeNotValid n)
       else .ok { size := n, health_check := none, pre_connect := false }) ∧
    (∃ b, SurfPoolBuilder.new 100 = .ok b) ∧
    (∀ e : SurfPoolError, ∃ m, e = .SizeNotValid m) := by
  refine ⟨?_, ⟨_, by rfl⟩, ?_⟩
  · simp only [SurfPoolBuilder.new, MAX_POOL_SIZE, SurfPoolBuilder.mkDefault]
  · intro e
    cases e with
    | SizeNotValid m => exact ⟨m, rfl⟩

/-- C3 (code bug): Rust drops the fields of `Handler` in declaration order,
so the admission permit (field `sg`) is released before the slot lock (field
`mg`) — the reverse of the specified order.  Consequently a size-1 pool
reaches `midDropState`, where the gate already shows a free permit while the
slot is still locked: a concurrent `get_handler` there acquires the permit,
scans, finds no free slot and hits its fatal `unwrap`. -/
theorem c3_release_order_reversed :
    handlerDropOrder = [ReleaseAction.releasePermit, ReleaseAction.releaseLock] ∧
    handlerDropOrder ≠ [ReleaseAction.releaseLock, ReleaseAction.releasePermit] ∧
    Reachable 1 midDropState ∧
    0 < midDropState.avail ∧
    firstFree midDropState.locked = none ∧
    get_handler midDropState = .fatal := by
  refine ⟨rfl, by decide, ?_, by decide, by decide, by decide⟩
  have h1 : Step (initState 1)
      ({ size := 1, locked := [true], avail := 0, poisoned := false,
         guards := [{ slot := 0, phase := .full }] } : PoolState) :=
    @Step.checkout (initState 1) 0
      { size := 1, locked := [true], avail := 0, poisoned := false,
        guards := [{ slot := 0, phase := .full }] }
      (by decide) (by decide)
  have h2 : Reachable 1
      ({ size := 1, locked := [true], avail := 0, poisoned := false,
         guards := [{ slot := 0, phase := .full }] } : PoolState) :=
    Reachable.step Reachable.init h1
  exact Reachable.step h2 (@Step.dropPermit _ [] [] 0 rfl)

/-- C4: once a permit is acquired, the checkout scans the slots from index 0
upward and takes the first slot whose lock is free: the returned guard holds
exactly that slot, every smaller index was locked, and nothing beyond
first-free-by-scan-order is guaranteed about the slot choice. -/
theorem c4_first_free_scan_order (s : PoolState) (i : Nat) (s' : PoolState)
    (h : checkoutAfterAcquire s = .got i s') :
    s.locked[i]? = some false ∧
    (∀ j, j < i → s.locked[j]? = some true) ∧
    s'.guards = s.guards ++ [({ slot := i, phase := .full } : Guard)] := by
  obtain ⟨hp, hf, rfl⟩ := checkoutAfterAcquire_got h
  obtain ⟨h1, h2⟩ := firstFree_some hf
  exact ⟨h1, h2, rfl⟩

/-- Witness for C4: a pool with slot 0 locked and slot 1 free yields slot 1. -/
theorem c4_witness :
    ({ size := 2, locked := [true, false], avail := 2, poisoned := false,
       guards := [{ slot := 0, phase := .full }] } : PoolState).locked[1]? =
      some false ∧
    ∀ j, j < 1 →
      ({ size := 2, locked := [true, false], avail := 2, poisoned := false,
         guards := [{ slot := 0, phase := .full }] } : PoolState).locked[j]? =
        some true := by
  have h := c4_first_free_scan_order
    { size := 2, locked := [true, false], avail := 2, poisoned := false,
      guards := [{ slot := 0, phase := .full }] }
    1
    { size := 2, locked := [true, true], avail := 1, poisoned := false,
      guards := [{ slot := 0, phase := .full }, { slot := 1, phase := .full }] }
    (by decide)
  exact ⟨h.1, h.2.1⟩

/-- C5: a scan that finds no free slot after the acquisition makes
`get_handler` abort with a fatal fault (never a recoverable error, a retry or
a block); and in any state satisfying the pairing invariant
(locked slots + available permits = pool size) in which a permit was
obtainable, the scan does find a slot, so checkout returns a guard. -/
theorem c5_scan_failure_fatal_but_unreachable (s t : PoolState)
    (hlen : s.locked.length = s.size)
    (hpair : s.locked.count true + s.avail = s.size)
    (hp : s.poisoned = false)
    (hav : 0 < s.avail)
    (htp : t.poisoned = false)
    (htf : firstFree t.locked = none) :
    get_handler t = .fatal ∧
    ∃ i s', checkoutAfterAcquire s = .got i s' ∧ get_handler s = .handler i s' := by
  constructor
  · rw [get_handler, checkoutAfterAcquire, htp]
    simp only [Bool.false_eq_true, if_false]
    rw [htf]
  · cases hf : firstFree s.locked with
    | none =>
        exfalso
        have hc := firstFree_none_count hf
        omega
    | some j =>
        refine ⟨j, { s with
                       avail := s.avail - 1
                       locked := s.locked.set j true
                       guards := s.guards ++
                         [({ slot := j, phase := .full } : Guard)] }, ?_, ?_⟩
        · rw [checkoutAfterAcquire, hp]
          simp only [Bool.false_eq_true, if_false]
          rw [hf]
        · rw [get_handler, checkoutAfterAcquire, hp]
          simp only [Bool.false_eq_true, if_false]
          rw [hf]

/-- Witness for C5: the fresh size-1 pool is well paired and checkout
succeeds there; in `midDropState` the scan fails and `get_handler` is fatal. -/
theorem c5_witness :
    get_handler midDropState = .fatal ∧
    ∃ i s', checkoutAfterAcquire (initState 1) = .got i s' ∧
            get_handler (initState 1) = .handler i s' :=
  c5_scan_failure_fatal_but_unreachable (initState 1) midDropState
    (by decide) (by decide) (by decide) (by decide) (by decide) (by decide)

/-- C6: with a warm-up template set and pre-connect enabled, build issues
exactly one warm-up per slot, walking the `n` slots in index order, and the
constructed pool is the same whatever the warm-up outcomes: a failed warm-up
is discarded and neither aborts construction nor marks its slot unusable. -/
theorem c6_warmup_per_slot (b : SurfPoolBuilder) (net net' : Nat → Bool)
    (hc : b.health_check.isSome = true) (hp : b.pre_connect = true) :
    (b.build net).2.map Prod.fst = List.range b.size ∧
    (b.build net).1 = (b.build net').1 := by
  obtain ⟨rb, hrb⟩ := Option.isSome_iff_exists.mp hc
  constructor
  · simp only [SurfPoolBuilder.build, hrb, hp, if_true, List.map_map]
    exact List.map_id' _
  · cases hb : b.health_check <;> simp [SurfPoolBuilder.build, hb]

/-- Witness for C6: size-2 builder with a template, pre-connect on; warm-ups
all fail under one oracle and all succeed under the other. -/
theorem c6_witness :
    (({ size := 2, health_check := some { url := "u" }, pre_connect := true } :
        SurfPoolBuilder).build (fun _ => false)).2.map Prod.fst = List.range 2 ∧
    (({ size := 2, health_check := some { url := "u" }, pre_connect := true } :
        SurfPoolBuilder).build (fun _ => false)).1 =
    (({ size := 2, health_check := some { url := "u" }, pre_connect := true } :
        SurfPoolBuilder).build (fun _ => true)).1 :=
  c6_warmup_per_slot _ (fun _ => false) (fun _ => true) rfl rfl

/-- C7: with pre-connect disabled build issues zero warm-up attempts yet
still retains the built template on the pool; and with no template set no
warm-up happens even with pre-connect enabled and the pool retains none. -/
theorem c7_no_warmup (b : SurfPoolBuilder) (net : Nat → Bool)
    (h : b.pre_connect = false ∨ b.health_check = none) :
    (b.build net).2 = [] ∧
    (b.build net).1.health_check = b.health_check.map RequestBuilder.build := by
  rcases h with h | h
  · cases hb : b.health_check <;> simp [SurfPoolBuilder.build, hb, h]
  · simp [SurfPoolBuilder.build, h]

/-- Witness for C7: a template is set but pre-connect is off — no warm-up
event, template retained. -/
theorem c7_witness :
    (({ size := 3, health_check := some { url := "u" }, pre_connect := false } :
        SurfPoolBuilder).build (fun _ => true)).2 = [] ∧
    (({ size := 3, health_check := some { url := "u" }, pre_connect := false } :
        SurfPoolBuilder).build (fun _ => true)).1.health_check =
      (some { url := "u" } : Option RequestBuilder).map RequestBuilder.build :=
  c7_no_warmup _ (fun _ => true) (Or.inl rfl)

/-- C8: for every valid size 1 ≤ n ≤ 100 the builder succeeds, the built pool
reports size n and holds exactly n slots each containing one fresh client
instance, and no protocol transition ever changes the slot count. -/
theorem c8_size_round_trip (n : Nat) (h1 : 1 ≤ n) (h2 : n ≤ 100) :
    (∃ b, SurfPoolBuilder.new n = .ok b ∧
        ∀ net, (b.build net).1.get_pool_size = n ∧
               (b.build net).1.pool = List.replicate n Client.new) ∧
    (∀ s s', Step s s' → s'.locked.length = s.locked.length) ∧
    (∀ s, Reachable n s → s.locked.length = n) := by
  refine ⟨?_, fun s s' hs => step_locked_length hs,
          fun s hs => (reachable_inv hs).locked_len⟩
  refine ⟨{ size := n, health_check := none, pre_connect := false }, ?_, ?_⟩
  · rw [SurfPoolBuilder.new]
    rw [if_neg (by rw [MAX_POOL_SIZE]; omega)]
    rfl
  · intro net
    constructor
    · simp [SurfPoolBuilder.build, SurfPool.get_pool_size]
    · simp [SurfPoolBuilder.build]

/-- Witness for C8 at size 3. -/
theorem c8_witness :
    ∃ b, SurfPoolBuilder.new 3 = .ok b ∧
        ∀ net, (b.build net).1.get_pool_size = 3 ∧
               (b.build net).1.pool = List.replicate 3 Client.new :=
  (c8_size_round_trip 3 (by decide) (by decide)).1

/-- C9: the gate of a pool built by the builder has capacity at least 1, and
in every reachable state the semaphore is unpoisoned, so the acquisition
inside checkout never takes its error branch and its unwrap cannot fail. -/
theorem c9_acquire_never_fails (n : Nat) (s : PoolState) (h : Reachable n s) :
    s.poisoned = false ∧
    checkoutAfterAcquire s ≠ .acquireFailed ∧
    (∀ m b, SurfPoolBuilder.new m = .ok b → 1 ≤ b.size) := by
  have hI := reachable_inv h
  refine ⟨hI.not_poisoned, ?_, ?_⟩
  · rw [checkoutAfterAcquire, hI.not_poisoned]
    simp only [Bool.false_eq_true, if_false]
    cases firstFree s.locked <;> simp
  · intro m b hb
    rw [SurfPoolBuilder.new] at hb
    by_cases hm : m = 0 ∨ m > MAX_POOL_SIZE
    · rw [if_pos hm] at hb
      cases hb
    · rw [if_neg hm] at hb
      injection hb with hb'
      subst hb'
      show 1 ≤ m
      omega

/-- Witness for C9 at the fresh size-1 pool. -/
theorem c9_witness :
    (initState 1).poisoned = false ∧
    checkoutAfterAcquire (initState 1) ≠ .acquireFailed :=
  ⟨(c9_acquire_never_fails 1 (initState 1) Reachable.init).1,
   (c9_acquire_never_fails 1 (initState 1) Reachable.init).2.1⟩

/-- C10: `#[derive(Clone)]` on the pool clones `Arc`s, so a clone shares the
same slot allocations and the same admission gate as the original: a checkout
performed through the clone runs on the very same shared state (consuming a
permit and locking a slot of the original), and the guard bound of the shared
state limits pool plus clones together to at most `n` live guards. -/
theorem c10_clone_shares_state (p : SurfPoolRefs) (n : Nat) (s : PoolState)
    (h : Reachable n s) :
    p.clone.poolRefs = p.poolRefs ∧
    p.clone.semRef = p.semRef ∧
    (∀ heap : Nat → PoolState,
        checkoutAfterAcquire (p.clone.stateOf heap) =
        checkoutAfterAcquire (p.stateOf heap)) ∧
    s.guards.length ≤ n := by
  refine ⟨?_, rfl, fun heap => rfl, inv_guards_le (reachable_inv h)⟩
  show p.poolRefs.map arcClone = p.poolRefs
  exact List.map_id' p.poolRefs

/-- Witness for C10 with a concrete handle and the fresh size-2 state. -/
theorem c10_witness :
    ({ poolRefs := [4, 7], semRef := 9, health_check := none } :
        SurfPoolRefs).clone.poolRefs = [4, 7] ∧
    (initState 2).guards.length ≤ 2 :=
  ⟨(c10_clone_shares_state
      { poolRefs := [4, 7], semRef := 9, health_check := none }
      2 (initState 2) Reachable.init).1,
   (c10_clone_shares_state
      { poolRefs := [4, 7], semRef := 9, health_check := none }
      2 (initState 2) Reachable.init).2.2.2⟩
